import Mathlib

/-!
Verification development for the document-formatting service
(`src/app/api/format/route.ts`).  The pipeline there converts an uploaded
`.docx` file to HTML, applies tidy transforms (spacing normalization,
heading title case, smart quotes), synthesizes a preset stylesheet,
sanitizes the markup, and re-encodes the result.

The shallow embedding below models:
  * strings as Lean `String` / `List Char`, with the JS regex character
    classes made explicit;
  * the decoded document body as a flat list of block elements, each
    carrying its text content (the cheerio tree at the level the
    transforms inspect it: paragraph contents are modeled at text level,
    where the serialized entity `&nbsp;` corresponds to U+00A0);
  * the external libraries (mammoth, cheerio parse/serialize, DOMPurify,
    html-docx-js) as function parameters, fallible ones returning
    `Except`.
-/

namespace FormatStudio

/-- The character codes of the JS regex class `\s`: tab, LF, VT, FF, CR,
space, NBSP and the Unicode space separators. -/
def wsCodes : List Nat :=
  [9, 10, 11, 12, 13, 32, 160, 5760, 8192, 8193, 8194, 8195, 8196, 8197,
   8198, 8199, 8200, 8201, 8202, 8232, 8233, 8239, 8287, 12288, 65279]

/-- The JS regex class `\s` (whitespace), as used by `String.prototype.trim`
and the `/\s/` patterns in the route. -/
def wsB (c : Char) : Bool := wsCodes.contains c.toNat

/-- The character codes of `[.,;:!?]`: period, comma, semicolon, colon,
exclamation and question mark. -/
def punctCodes : List Nat := [46, 44, 59, 58, 33, 63]

/-- The punctuation class `[.,;:!?]` from the spacing-normalization regex. -/
def punctB (c : Char) : Bool := punctCodes.contains c.toNat

/-- Step 1 of `normalizeSpacing`'s string cleanup:
`.replace(/&nbsp;/g, " ")` — at text level, the non-breaking space
character (whose serialized form is the `&nbsp;` entity) becomes a plain
space. -/
def nbL (l : List Char) : List Char :=
  l.map fun c => if c = Char.ofNat 160 then Char.ofNat 32 else c

/-- Scanner state for the `/\s{2,}/g` pass: either no pending whitespace,
one pending whitespace character `w` (kept verbatim if the run stops at
length one), or inside a run of length at least two (to be replaced by a
single space). -/
inductive CState
  | clean
  | pend (w : Char)
  | run
deriving DecidableEq

/-- Step 2: `.replace(/\s{2,}/g, " ")` — every maximal run of two or more
whitespace characters collapses to a single space; a lone whitespace
character is left as it is.  Scans left to right, tracking the current
whitespace run in the state. -/
def collapseA : CState → List Char → List Char
  | .clean, [] => []
  | .pend w, [] => [w]
  | .run, [] => [Char.ofNat 32]
  | .clean, c :: rest => if wsB c then collapseA (.pend c) rest else c :: collapseA .clean rest
  | .pend w, c :: rest => if wsB c then collapseA .run rest else w :: c :: collapseA .clean rest
  | .run, c :: rest =>
    if wsB c then collapseA .run rest else Char.ofNat 32 :: c :: collapseA .clean rest

def collapseL (l : List Char) : List Char := collapseA .clean l

/-- Step 3: `.replace(/\s+([.,;:!?])/g, "$1")` — a maximal whitespace run
immediately followed by a punctuation mark is deleted (the punctuation is
kept); runs not followed by punctuation are kept verbatim.  `pend` holds
the current whitespace run, in reverse. -/
def stripA : List Char → List Char → List Char
  | pend, [] => pend.reverse
  | pend, c :: rest =>
    if wsB c then stripA (c :: pend) rest
    else if punctB c then c :: stripA [] rest
    else pend.reverse ++ c :: stripA [] rest

def stripL (l : List Char) : List Char := stripA [] l

/-- Step 4: `.trim()` — drop whitespace from both ends. -/
def trimL (l : List Char) : List Char :=
  ((l.dropWhile wsB).reverse.dropWhile wsB).reverse

/-- The whole string cleanup performed on a paragraph's content by
`normalizeSpacing` (route.ts lines 104–109). -/
def normalizeText (s : String) : String :=
  String.mk (trimL (stripL (collapseL (nbL s.data))))

/-- JS `String.prototype.trim`, used in `previous.text().trim()`. -/
def jsTrim (s : String) : String :=
  String.mk (trimL s.data)

/-- A block element of the decoded document body (the cheerio tree at the
level the transforms inspect it): a `<p>` element, or any other element
(`h1`–`h6`, `li`, `td`, `blockquote`, …) with its tag name; each carries
its text content. -/
inductive Block
  | para (content : String)
  | other (tag : String) (content : String)
deriving DecidableEq, Repr

/-- The test the final `$("p:empty").remove()` sweep applies: a `<p>` with
no content at all is removed, every other node is kept. -/
def keepAfterSweep : Block → Bool
  | .para c => !(c == "")
  | .other _ _ => true

/-- One iteration of the `$("p").each(...)` loop in `normalizeSpacing`
(route.ts lines 102–120).  `acc` holds the already-processed prefix of
the tree in reverse order, so `acc.head?` is the immediately preceding
sibling element, which `el.prev("p")` matches only when it is a `<p>`. -/
def normStep (acc : List Block) (b : Block) : List Block :=
  match b with
  | .other t c => .other t c :: acc
  | .para c =>
    let normalized := normalizeText c
    if normalized == "" then
      match acc with
      | .para pc :: _ => if jsTrim pc == "" then acc else .para "" :: acc
      | _ => acc
    else .para normalized :: acc

/-- The `$("p").each` loop, folded over the snapshot of paragraphs in
document order. -/
def normPassAux : List Block → List Block → List Block
  | acc, [] => acc.reverse
  | acc, b :: r => normPassAux (normStep acc b) r

/-- `normalizeSpacing` (route.ts lines 101–123): the per-paragraph loop
followed by the final `$("p:empty").remove()` sweep. -/
def normalizeSpacing (t : List Block) : List Block :=
  (normPassAux [] t).filter keepAfterSweep

/-- `word.charAt(0).toUpperCase() + word.slice(1)`. -/
def capFirst (w : String) : String :=
  match w.data with
  | [] => ""
  | c :: r => String.mk (c.toUpper :: r)

/-- The connector-word set of `toTitleCase` (route.ts line 74). -/
def smallWords : List String :=
  ["and", "or", "the", "of", "for", "in", "on", "to", "a", "an", "with"]

/-- JS `"...".split(/\s+/)`: the list of substrings between maximal
whitespace runs, including an empty token at either edge when the string
starts or ends with whitespace.  The state is `some cur` while
accumulating the current token (in reverse), `none` while consuming a
separator run. -/
def splitWsAux : Option (List Char) → List Char → List String
  | some cur, [] => [String.mk cur.reverse]
  | none, [] => [""]
  | some cur, c :: rest =>
    if wsB c then String.mk cur.reverse :: splitWsAux none rest
    else splitWsAux (some (c :: cur)) rest
  | none, c :: rest =>
    if wsB c then splitWsAux none rest
    else splitWsAux (some [c]) rest

def splitWs (l : List Char) : List String := splitWsAux (some []) l

/-- JS `word.split("-")`: split on every hyphen, keeping empty segments. -/
def splitHyphenAux : List Char → List Char → List String
  | cur, [] => [String.mk cur.reverse]
  | cur, c :: rest =>
    if c = Char.ofNat 45 then String.mk cur.reverse :: splitHyphenAux [] rest
    else splitHyphenAux (c :: cur) rest

def splitHyphen (w : String) : List String := splitHyphenAux [] w.data

/-- JS `Array.prototype.join(sep)`. -/
def joinSep (sep : String) : List String → String
  | [] => ""
  | [w] => w
  | w :: rest => w ++ sep ++ joinSep sep rest

/-- JS `String.prototype.toLowerCase`, character by character. -/
def toLowerS (s : String) : String := String.mk (s.data.map Char.toLower)

/-- The per-word mapping inside `toTitleCase` (route.ts lines 76–88):
`index` is the word's position, `count` the number of words. -/
def titleWord (index : Nat) (count : Nat) (word : String) : String :=
  if word = "" then ""
  else if word.data.contains (Char.ofNat 45) then
    joinSep "-" ((splitHyphen word).map capFirst)
  else if index ≠ 0 ∧ index ≠ count - 1 ∧ word ∈ smallWords then word
  else capFirst word

def mapIdxFrom (f : Nat → α → β) : Nat → List α → List β
  | _, [] => []
  | n, a :: r => f n a :: mapIdxFrom f (n + 1) r

/-- `toTitleCase` (route.ts lines 71–90): lowercase, split on whitespace,
map each word by position, join with single spaces. -/
def toTitleCase (input : String) : String :=
  let words := splitWs (toLowerS input).data
  joinSep " " (mapIdxFrom (fun i w => titleWord i words.length w) 0 words)

/-- `applyTitleCase` (route.ts lines 125–131): rewrite the text of every
`h1`, `h2`, `h3` element. -/
def applyTitleCase (t : List Block) : List Block :=
  t.map fun b =>
    match b with
    | .other tag c =>
      if tag = "h1" ∨ tag = "h2" ∨ tag = "h3" then .other tag (toTitleCase c)
      else .other tag c
    | .para c => .para c

/-- The class `[\s([{<]` from the smart-quote regexes: whitespace or an
opening bracket. -/
def openerB (c : Char) : Bool :=
  wsB c || c.toNat == 40 || c.toNat == 91 || c.toNat == 123 || c.toNat == 60

/-- The scanning loop of `value.replace(/(^|[\s([{<])q/g, "$1o")` after
position 0: an opener followed by the straight quote `q` rewrites that
quote to `o` and continues after it. -/
def replOpenGo (q o : Char) : List Char → List Char
  | [] => []
  | [c] => [c]
  | c :: d :: rest =>
    if openerB c then
      if d = q then c :: o :: replOpenGo q o rest
      else c :: replOpenGo q o (d :: rest)
    else c :: replOpenGo q o (d :: rest)

/-- `value.replace(/(^|[\s([{<])q/g, "$1o")`: the `^` alternative fires
only at position 0, the rest is `replOpenGo`. -/
def replOpen (q o : Char) (l : List Char) : List Char :=
  match l with
  | [] => []
  | c :: rest => if c = q then o :: replOpenGo q o rest else replOpenGo q o l

/-- `value.replace(/q/g, "c")`: every remaining straight quote becomes the
closing curly quote. -/
def replClose (q cc : Char) (l : List Char) : List Char :=
  l.map fun c => if c = q then cc else c

/-- `convertSmartQuotes` (route.ts lines 92–99): the four sequential
replacements — opening then closing double quotes, opening then closing
single quotes. -/
def convertSmartQuotes (value : String) : String :=
  let s1 := replOpen (Char.ofNat 34) '“' value.data
  let s2 := replClose (Char.ofNat 34) '”' s1
  let s3 := replOpen (Char.ofNat 39) '‘' s2
  let s4 := replClose (Char.ofNat 39) '’' s3
  String.mk s4

/-- `applySmartQuotes` (route.ts lines 133–142): rewrite every text node
under the body. -/
def applySmartQuotes (t : List Block) : List Block :=
  t.map fun b =>
    match b with
    | .para c => .para (convertSmartQuotes c)
    | .other tag c => .other tag (convertSmartQuotes c)

/-- One preset's record in `PRESET_CONFIG` (route.ts lines 9–56).
`lineHeight` holds the decimal literal exactly as it is interpolated into
the stylesheet text. -/
structure PresetConfig where
  fontFamily : String
  headingFont : String
  bodySize : Nat
  headingWeight : Nat
  lineHeight : String
  paragraphSpacing : Nat
  accent : String
  pageMargin : String
  background : String
deriving DecidableEq

inductive StylePresetId
  | classic
  | modern
  | executive
deriving DecidableEq, Repr

/-- The `PRESET_CONFIG` table. -/
def presetConfig : StylePresetId → PresetConfig
  | .classic =>
    { fontFamily := "\x22Times New Roman\x22, Times, serif"
      headingFont := "\x22Times New Roman\x22, Times, serif"
      bodySize := 12
      headingWeight := 600
      lineHeight := "1.5"
      paragraphSpacing := 14
      accent := "#1d4ed8"
      pageMargin := "1in"
      background := "#f8fafc" }
  | .modern =>
    { fontFamily := "\x22Calibri\x22, \x22Segoe UI\x22, sans-serif"
      headingFont := "\x22Source Sans Pro\x22, \x22Calibri\x22, \x22Segoe UI\x22, sans-serif"
      bodySize := 11
      headingWeight := 600
      lineHeight := "1.65"
      paragraphSpacing := 16
      accent := "#0f766e"
      pageMargin := "0.9in"
      background := "#f0fdfa" }
  | .executive =>
    { fontFamily := "\x22Helvetica Neue\x22, Arial, sans-serif"
      headingFont := "Georgia, \x27Times New Roman\x27, serif"
      bodySize := 11
      headingWeight := 700
      lineHeight := "1.58"
      paragraphSpacing := 15
      accent := "#a16207"
      pageMargin := "1in 1.15in 1in 1.15in"
      background := "#fffbeb" }

/-- `FormatterOptions` (route.ts lines 58–64). -/
structure FormatterOptions where
  justify : Bool
  tidySpacing : Bool
  titleCaseHeadings : Bool
  autoNumberHeadings : Bool
  convertQuotes : Bool
deriving DecidableEq

/-- The numbering block of `buildStyleSheet` (route.ts lines 146–174),
emitted when `options.autoNumberHeadings` is set. -/
def numberingCss (p : PresetConfig) : String :=
  "\n  .docx-content \x7b\n    counter-reset: h1;\n  \x7d\n" ++
  "  .docx-content h1 \x7b\n    counter-reset: h2;\n  \x7d\n" ++
  "  .docx-content h1::before \x7b\n    counter-increment: h1;\n    content: counter(h1) \x22. \x22;\n  \x7d\n" ++
  "  .docx-content h2 \x7b\n    counter-reset: h3;\n  \x7d\n" ++
  "  .docx-content h2::before \x7b\n    counter-increment: h2;\n    content: counter(h1) \x22.\x22 counter(h2) \x22 \x22;\n  \x7d\n" ++
  "  .docx-content h3::before \x7b\n    counter-increment: h3;\n    content: counter(h1) \x22.\x22 counter(h2) \x22.\x22 counter(h3) \x22 \x22;\n  \x7d\n" ++
  "  .docx-content h1::before,\n  .docx-content h2::before,\n  .docx-content h3::before \x7b\n    font-weight: " ++
  toString p.headingWeight ++ ";\n    color: " ++ p.accent ++ ";\n  \x7d\n"

/-- The main body of the stylesheet template (route.ts lines 177–258),
up to the point where `${numbering}` is interpolated. -/
def sheetMain (p : PresetConfig) (justify : Bool) : String :=
  "\n  @page \x7b\n    margin: " ++ p.pageMargin ++ ";\n  \x7d\n\n" ++
  "  body \x7b\n    font-family: " ++ p.fontFamily ++ ";\n    font-size: " ++
  toString p.bodySize ++ "pt;\n    line-height: " ++ p.lineHeight ++
  ";\n    color: #1f2937;\n    background: #ffffff;\n    margin: 0;\n  \x7d\n\n" ++
  "  .docx-shell \x7b\n    min-height: 100vh;\n    background: " ++ p.background ++
  ";\n    padding: 48px 0;\n  \x7d\n\n" ++
  "  .docx-content \x7b\n    background: #ffffff;\n    margin: 0 auto;\n    max-width: 7in;\n    padding: 1in 1.1in;\n    box-shadow: 0 20px 45px -28px rgba(15, 23, 42, 0.45);\n    border-radius: 12px;\n  \x7d\n\n" ++
  "  .docx-content p \x7b\n    margin: " ++ toString p.paragraphSpacing ++ "pt 0;\n    " ++
  (if justify then "text-align: justify;" else "text-align: left;") ++ "\n  \x7d\n\n" ++
  "  .docx-content h1,\n  .docx-content h2,\n  .docx-content h3,\n  .docx-content h4,\n  .docx-content h5,\n  .docx-content h6 \x7b\n    font-family: " ++
  p.headingFont ++ ";\n    font-weight: " ++ toString p.headingWeight ++
  ";\n    letter-spacing: -0.02em;\n    color: " ++ p.accent ++
  ";\n    margin-top: 1.6em;\n    margin-bottom: 0.5em;\n  \x7d\n\n" ++
  "  .docx-content h1 \x7b font-size: 28px; \x7d\n  .docx-content h2 \x7b font-size: 22px; \x7d\n  .docx-content h3 \x7b font-size: 18px; \x7d\n\n" ++
  "  .docx-content ul,\n  .docx-content ol \x7b\n    margin: " ++
  toString p.paragraphSpacing ++ "pt 0 " ++ toString p.paragraphSpacing ++
  "pt 24px;\n    padding: 0;\n  \x7d\n\n" ++
  "  .docx-content ul li \x7b\n    margin-bottom: 6px;\n  \x7d\n\n" ++
  "  .docx-content table \x7b\n    width: 100%;\n    border-collapse: collapse;\n    margin: 18px 0;\n  \x7d\n\n" ++
  "  .docx-content table th,\n  .docx-content table td \x7b\n    border: 1px solid #e2e8f0;\n    padding: 8px 12px;\n  \x7d\n\n" ++
  "  .docx-content blockquote \x7b\n    border-left: 4px solid " ++ p.accent ++
  ";\n    padding-left: 18px;\n    margin: " ++ toString p.paragraphSpacing ++
  "pt 0;\n    font-style: italic;\n    color: #475569;\n  \x7d\n\n  "

/-- `buildStyleSheet` (route.ts lines 144–261). -/
def buildStyleSheet (p : PresetConfig) (o : FormatterOptions) : String :=
  let numbering := if o.autoNumberHeadings then numberingCss p else ""
  sheetMain p o.justify ++ numbering ++ "\n"

/-- Literal HTML segments of the `wrapped` template in `buildHtmlDocument`
(route.ts lines 267–283). -/
def docPartA : String :=
  "\n    <!doctype html>\n    <html lang=\x22en\x22>\n      <head>\n        <meta charset=\x22utf-8\x22 />\n        <title>Formatted Word Document</title>\n        <style>"

def docPartB : String :=
  "</style>\n      </head>\n      <body>\n        <div class=\x22docx-shell\x22>\n          <div class=\x22docx-content\x22>\n            "

def docPartC : String :=
  "\n          </div>\n        </div>\n      </body>\n    </html>\n  "

/-- Literal HTML segments of the `preview` template (route.ts lines 285–290). -/
def prevPartA : String := "\n    <style>"

def prevPartB : String := "</style>\n    <div class=\x22docx-content\x22>\n      "

def prevPartC : String := "\n    </div>\n  "

/-- `buildHtmlDocument` (route.ts lines 263–293), with `DOMPurify.sanitize`
passed in as the `sanitize` parameter.  Returns
`(documentHtml, previewHtml)`. -/
def buildHtmlDocument (sanitize : String → String) (bodyMarkup : String)
    (preset : StylePresetId) (options : FormatterOptions) : String × String :=
  let config := presetConfig preset
  let stylesheet := buildStyleSheet config options
  let sanitizedContent := sanitize bodyMarkup
  let wrapped := docPartA ++ stylesheet ++ docPartB ++ sanitizedContent ++ docPartC
  let preview := prevPartA ++ stylesheet ++ prevPartB ++ sanitizedContent ++ prevPartC
  (wrapped, preview)

/-- A `File` value in a multipart form. -/
structure FileVal where
  bytes : List Nat
deriving DecidableEq

/-- A `FormDataEntryValue`: either a string field or a file. -/
inductive FormDataEntryValue
  | str (s : String)
  | file (f : FileVal)
deriving DecidableEq

/-- `parseBoolean` (route.ts lines 66–69): a missing or non-string value
yields the fallback; a string parses to true exactly when it is `"true"`
or `"1"`. -/
def parseBoolean (value : Option FormDataEntryValue) (fallback : Bool) : Bool :=
  match value with
  | some (.str s) => s == "true" || s == "1"
  | _ => fallback

/-- The options record built in `POST` (route.ts lines 306–312). -/
def parseOptions (form : String → Option FormDataEntryValue) : FormatterOptions :=
  { justify := parseBoolean (form "justify") true
    tidySpacing := parseBoolean (form "tidySpacing") true
    titleCaseHeadings := parseBoolean (form "titleCaseHeadings") true
    autoNumberHeadings := parseBoolean (form "autoNumberHeadings") false
    convertQuotes := parseBoolean (form "convertQuotes") true }

/-- `(formData.get("preset") as StylePresetId) || "classic"` (route.ts
line 303): a missing value or the empty string (both falsy) become
`"classic"`; any other value passes through. -/
def presetFallback (v : Option FormDataEntryValue) : FormDataEntryValue :=
  match v with
  | none => .str "classic"
  | some (.str "") => .str "classic"
  | some x => x

/-- The own-key membership test of `PRESET_CONFIG` — the resolution the
handler's `StylePresetId` annotation on line 304 declares, against the
three keys the table itself defines.  Note this is NOT the whole runtime
behavior of the JS truthiness test `PRESET_CONFIG[presetId]`: a plain
object literal also inherits the members of `Object.prototype`, so keys
such as `"constructor"` or `"toString"` are truthy too; that actual
lookup is modeled below by `presetKeyTruthy` and `chosenPresetJs`.  A
file value coerces to the key `"[object File]"`, absent from table and
prototype alike. -/
def lookupPreset : FormDataEntryValue → Option StylePresetId
  | .str "classic" => some .classic
  | .str "modern" => some .modern
  | .str "executive" => some .executive
  | _ => none

/-- `const chosenPreset = PRESET_CONFIG[presetId] ? presetId : "classic"`
(route.ts lines 303–304), under the enumerated resolution its
`StylePresetId` type annotation declares (see `lookupPreset`; the raw
runtime behavior is `chosenPresetJs`). -/
def chosenPreset (v : Option FormDataEntryValue) : StylePresetId :=
  (lookupPreset (presetFallback v)).getD .classic

/-- The inherited members of `Object.prototype` visible through property
lookup on a plain object literal; every one of them is a function (or,
for `__proto__`, an object), hence truthy. -/
def objectPrototypeKeys : List String :=
  ["constructor", "hasOwnProperty", "isPrototypeOf", "propertyIsEnumerable",
   "toLocaleString", "toString", "valueOf", "__proto__", "__defineGetter__",
   "__defineSetter__", "__lookupGetter__", "__lookupSetter__"]

/-- The actual JS truthiness of `PRESET_CONFIG[presetId]` (route.ts line
304): true on the table's own three keys and on every inherited
`Object.prototype` member; false on any other string and on a file value
(whose key `"[object File]"` names no property). -/
def presetKeyTruthy : FormDataEntryValue → Bool
  | .str s => s ∈ ["classic", "modern", "executive"] || s ∈ objectPrototypeKeys
  | .file _ => false

/-- `const chosenPreset = PRESET_CONFIG[presetId] ? presetId : "classic"`
(route.ts lines 303–304) as it actually evaluates at runtime: the raw
form value is kept whenever the lookup is truthy — including for
inherited `Object.prototype` keys, which therefore do not fall back to
`"classic"` and flow into `appliedPreset` and the style lookup. -/
def chosenPresetJs (v : Option FormDataEntryValue) : FormDataEntryValue :=
  let presetId := presetFallback v
  if presetKeyTruthy presetId then presetId else .str "classic"

/-- The fixed 400 message (route.ts line 300). -/
def invalidFileMsg : String := "Upload a valid .docx file."

/-- The fixed generic 500 message (route.ts line 348). -/
def genericErrorMsg : String :=
  "We could not format that document. Please ensure it is a valid .docx exported from Word."

/-- The external libraries the route calls, as abstract functions: the
fallible ones (`file.arrayBuffer`, mammoth, html-docx-js) return
`Except`, the infallible ones are plain functions. -/
structure ExternalLibs where
  fileBytes : FileVal → Except Unit (List Nat)
  mammothConvert : List Nat → Except Unit String
  parseHtml : String → List Block
  serializeHtml : List Block → String
  sanitize : String → String
  docxEncode : String → Except Unit (List Nat)
  toBase64 : List Nat → String

/-- The conditional transform sequence (route.ts lines 321–331). -/
def applyTransforms (o : FormatterOptions) (t : List Block) : List Block :=
  let t1 := if o.tidySpacing then normalizeSpacing t else t
  let t2 := if o.titleCaseHeadings then applyTitleCase t1 else t1
  if o.convertQuotes then applySmartQuotes t2 else t2

/-- The markup string handed to the assembler:
`$(".docx-root").html()` after the conditional transforms
(route.ts lines 319–333). -/
def bodyMarkupOf (ext : ExternalLibs) (o : FormatterOptions) (rawHtml : String) : String :=
  ext.serializeHtml (applyTransforms o (ext.parseHtml rawHtml))

/-- The body of the `try` block in `POST` (route.ts lines 314–344):
decode, transform, assemble, encode.  Any stage error aborts the whole
computation. -/
def pipeline (ext : ExternalLibs) (f : FileVal) (chosen : StylePresetId)
    (o : FormatterOptions) : Except Unit (List Nat × String) :=
  match ext.fileBytes f with
  | .error e => .error e
  | .ok buffer =>
    match ext.mammothConvert buffer with
    | .error e => .error e
    | .ok rawHtml =>
      let doc := buildHtmlDocument ext.sanitize (bodyMarkupOf ext o rawHtml) chosen o
      match ext.docxEncode doc.1 with
      | .error e => .error e
      | .ok docxBuffer => .ok (docxBuffer, doc.2)

/-- The three response shapes the handler can produce. -/
inductive ApiResponse
  | badRequest (error : String)
  | serverError (error : String)
  | ok (base64 : String) (previewHtml : String) (appliedPreset : StylePresetId)
deriving DecidableEq

/-- The `POST` handler (route.ts lines 295–352), over an already-parsed
multipart form. -/
def POST (form : String → Option FormDataEntryValue) (ext : ExternalLibs) : ApiResponse :=
  match form "file" with
  | some (.file f) =>
    match pipeline ext f (chosenPreset (form "preset")) (parseOptions form) with
    | .error _ => .serverError genericErrorMsg
    | .ok r => .ok (ext.toBase64 r.1) r.2 (chosenPreset (form "preset"))
  | _ => .badRequest invalidFileMsg

/-! Auxiliary definitions used only to state and prove properties of the
embedding (invariants, executable substring search, spec-side
reformulations to compare the code against). -/

/-- The non-breaking-space character does not occur. -/
def noNbsp (l : List Char) : Prop := ∀ c ∈ l, c ≠ Char.ofNat 160

/-- No two adjacent whitespace characters. -/
def noWsWs : List Char → Prop
  | [] => True
  | [_] => True
  | a :: b :: r => (wsB a = true → wsB b = false) ∧ noWsWs (b :: r)

/-- No whitespace character immediately before a punctuation mark. -/
def noWsPunct : List Char → Prop
  | [] => True
  | [_] => True
  | a :: b :: r => (wsB a = true → punctB b = false) ∧ noWsPunct (b :: r)

/-- Neither end of the list is whitespace. -/
def endsOk (l : List Char) : Prop :=
  (∀ c, l.head? = some c → wsB c = false) ∧ (∀ c, l.getLast? = some c → wsB c = false)

/-- The shape invariant a tree satisfies after `normalizeSpacing`: every
surviving paragraph has nonempty content already in normal form. -/
def normalBlock : Block → Prop
  | .para c => c ≠ "" ∧ normalizeText c = c
  | .other _ _ => True

/-- The condition under which the `each` loop removes (rather than clears)
an emptied paragraph: `el.prev("p")` is empty — the immediately preceding
sibling is missing or not a `<p>` — or that paragraph's text trims to
empty. -/
def prevParaAbsentOrBlank (acc : List Block) : Prop :=
  match acc with
  | .para pc :: _ => jsTrim pc = ""
  | _ => True

/-- Is the block a non-paragraph element? -/
def isOtherB : Block → Bool
  | .other _ _ => true
  | .para _ => false

/-- Executable check that `p` occurs at the start of `l`. -/
def isPrefixL : List Char → List Char → Bool
  | [], _ => true
  | _ :: _, [] => false
  | a :: as, b :: bs => a == b && isPrefixL as bs

/-- Executable substring search. -/
def containsL (p : List Char) : List Char → Bool
  | [] => isPrefixL p []
  | l@(_ :: rest) => isPrefixL p l || containsL p rest

/-- `containsS pat s` is true when `pat` occurs as a contiguous substring
of `s`. -/
def containsS (pat s : String) : Bool := containsL pat.data s.data

/-- Positional rewriting: the output character at each position is a
function of the input character there and of whether the character before
it (start of string counting as an opener) matched the class
`[\s([{<]`. -/
def posMapB (f : Bool → Char → Char) : Bool → List Char → List Char
  | _, [] => []
  | po, c :: rest => f po c :: posMapB f (openerB c) rest

/-- The directional rule for one straight quote `q`: opening curly `o`
when preceded by start-of-string, whitespace or an opening bracket,
closing curly `cc` otherwise. -/
def quoteRule (q o cc : Char) (po : Bool) (c : Char) : Char :=
  if c = q then (if po then o else cc) else c

/-- The spec's directional rule for both quote kinds at once
(spec section 4.2, quote substitution). -/
def smartRule (po : Bool) (c : Char) : Char :=
  if c = Char.ofNat 34 then (if po then '“' else '”')
  else if c = Char.ofNat 39 then (if po then '‘' else '’')
  else c

/-- The characters a scanner state can still emit. -/
def stChars : CState → List Char
  | .clean => []
  | .pend w => [w]
  | .run => [Char.ofNat 32]

/-- What one loop iteration can add to the processed prefix. -/
def passBlock (b : Block) : Prop :=
  (∃ tg c, b = .other tg c) ∨ b = .para "" ∨
  ∃ c, b = .para (normalizeText c) ∧ normalizeText c ≠ ""

/-- A pass-through set of external libraries, used to exercise the
handler on concrete inputs. -/
def extId : ExternalLibs :=
  { fileBytes := fun f => .ok f.bytes
    mammothConvert := fun _ => .ok ""
    parseHtml := fun _ => []
    serializeHtml := fun _ => ""
    sanitize := fun s => s
    docxEncode := fun _ => .ok []
    toBase64 := fun _ => "" }

/-- Like `extId` but with an encoder that always throws. -/
def extErr : ExternalLibs :=
  { extId with docxEncode := fun _ => .error () }

/-- A form carrying only a (trivial) file field. -/
def formFile : String → Option FormDataEntryValue :=
  fun k => if k = "file" then some (.file ⟨[]⟩) else none

/-- A form whose `justify` field holds the unrecognized token `"no"`. -/
def formJustifyNo : String → Option FormDataEntryValue :=
  fun k => if k = "justify" then some (.str "no") else none

/-! ### Helper lemmas: the adjacency invariants of the spacing cleanup -/

theorem noWsWs_tail {a : Char} {l : List Char} (h : noWsWs (a :: l)) : noWsWs l := by
  cases l with
  | nil => trivial
  | cons b r => exact h.2

theorem noWsPunct_tail {a : Char} {l : List Char} (h : noWsPunct (a :: l)) : noWsPunct l := by
  cases l with
  | nil => trivial
  | cons b r => exact h.2

theorem noWsWs_cons {c : Char} {l : List Char}
    (hhead : ∀ d, l.head? = some d → wsB c = true → wsB d = false)
    (h : noWsWs l) : noWsWs (c :: l) := by
  cases l with
  | nil => trivial
  | cons b r => exact ⟨hhead b rfl, h⟩

theorem noWsPunct_cons {c : Char} {l : List Char}
    (hhead : ∀ d, l.head? = some d → wsB c = true → punctB d = false)
    (h : noWsPunct l) : noWsPunct (c :: l) := by
  cases l with
  | nil => trivial
  | cons b r => exact ⟨hhead b rfl, h⟩

theorem noWsWs_pair {a b : Char} {l : List Char} (h : noWsWs (a :: b :: l)) :
    wsB a = true → wsB b = false := h.1

theorem noWsWs_dropWhile (p : Char → Bool) {l : List Char} (h : noWsWs l) :
    noWsWs (l.dropWhile p) := by
  induction l with
  | nil => simpa using h
  | cons a r ih =>
    rw [List.dropWhile_cons]
    split
    · exact ih (noWsWs_tail h)
    · exact h

theorem noWsPunct_dropWhile (p : Char → Bool) {l : List Char} (h : noWsPunct l) :
    noWsPunct (l.dropWhile p) := by
  induction l with
  | nil => simpa using h
  | cons a r ih =>
    rw [List.dropWhile_cons]
    split
    · exact ih (noWsPunct_tail h)
    · exact h

theorem noWsWs_append_left {l₁ l₂ : List Char} (h : noWsWs (l₁ ++ l₂)) : noWsWs l₁ := by
  induction l₁ with
  | nil => trivial
  | cons a r ih =>
    cases r with
    | nil => trivial
    | cons b r2 =>
      exact ⟨h.1, ih h.2⟩

theorem noWsPunct_append_left {l₁ l₂ : List Char} (h : noWsPunct (l₁ ++ l₂)) : noWsPunct l₁ := by
  induction l₁ with
  | nil => trivial
  | cons a r ih =>
    cases r with
    | nil => trivial
    | cons b r2 =>
      exact ⟨h.1, ih h.2⟩

theorem head_dropWhile_false (p : Char → Bool) (l : List Char) {c : Char}
    (hc : (l.dropWhile p).head? = some c) : p c = false := by
  have h := List.head?_dropWhile_not p l
  rw [hc] at h
  exact h

theorem wsB_of_punctB {c : Char} (h : punctB c = true) : wsB c = false := by
  cases hw : wsB c with
  | false => rfl
  | true =>
    exfalso
    simp only [punctB, punctCodes, List.contains_cons, List.contains_nil, Bool.or_eq_true,
      beq_iff_eq, Bool.false_eq_true, or_false] at h
    simp only [wsB, wsCodes, List.contains_cons, List.contains_nil, Bool.or_eq_true,
      beq_iff_eq, Bool.false_eq_true, or_false] at hw
    omega

/-! ### Lemmas about `collapseA` (the `/\\s{2,}/` pass) -/

theorem noWsWs_collapseA : ∀ (l : List Char) (st : CState), noWsWs (collapseA st l) := by
  intro l
  induction l with
  | nil =>
    intro st
    cases st <;> simp [collapseA] <;> trivial
  | cons c rest ih =>
    intro st
    cases st with
    | clean =>
      rw [collapseA]
      split
      · exact ih (.pend c)
      · rename_i hw
        have hc : wsB c = false := by
          cases h2 : wsB c
          · rfl
          · exact absurd h2 hw
        exact noWsWs_cons (fun d _ h2 => by rw [h2] at hc; cases hc) (ih .clean)
    | pend w =>
      rw [collapseA]
      split
      · exact ih .run
      · rename_i hw
        have hc : wsB c = false := by
          cases h2 : wsB c
          · rfl
          · exact absurd h2 hw
        refine noWsWs_cons (fun d hd _ => ?_) ?_
        · cases hd; exact hc
        · exact noWsWs_cons (fun d _ h2 => by rw [h2] at hc; cases hc) (ih .clean)
    | run =>
      rw [collapseA]
      split
      · exact ih .run
      · rename_i hw
        have hc : wsB c = false := by
          cases h2 : wsB c
          · rfl
          · exact absurd h2 hw
        refine noWsWs_cons (fun d hd _ => ?_) ?_
        · cases hd; exact hc
        · exact noWsWs_cons (fun d _ h2 => by rw [h2] at hc; cases hc) (ih .clean)

theorem noWsWs_collapseL (l : List Char) : noWsWs (collapseL l) :=
  noWsWs_collapseA l .clean

theorem mem_collapseA : ∀ {l : List Char} (st : CState) {c : Char},
    c ∈ collapseA st l → c ∈ stChars st ∨ c ∈ l ∨ c = Char.ofNat 32 := by
  intro l
  induction l with
  | nil =>
    intro st c h
    cases st <;> simp [collapseA, stChars] at h ⊢ <;> simp [h]
  | cons a rest ih =>
    intro st c h
    cases st with
    | clean =>
      rw [collapseA] at h
      split at h
      · rcases ih (.pend a) h with h2 | h2 | h2
        · simp [stChars] at h2
          right; left; rw [h2]; exact List.mem_cons_self _ _
        · right; left; exact List.mem_cons_of_mem a h2
        · right; right; exact h2
      · rcases List.mem_cons.mp h with h2 | h2
        · right; left; rw [h2]; exact List.mem_cons_self _ _
        · rcases ih .clean h2 with h3 | h3 | h3
          · simp [stChars] at h3
          · right; left; exact List.mem_cons_of_mem a h3
          · right; right; exact h3
    | pend w =>
      rw [collapseA] at h
      split at h
      · rcases ih .run h with h2 | h2 | h2
        · simp [stChars] at h2
          right; right; exact h2
        · right; left; exact List.mem_cons_of_mem a h2
        · right; right; exact h2
      · rcases List.mem_cons.mp h with h2 | h2
        · left; rw [h2]; simp [stChars]
        · rcases List.mem_cons.mp h2 with h3 | h3
          · right; left; rw [h3]; exact List.mem_cons_self _ _
          · rcases ih .clean h3 with h4 | h4 | h4
            · simp [stChars] at h4
            · right; left; exact List.mem_cons_of_mem a h4
            · right; right; exact h4
    | run =>
      rw [collapseA] at h
      split at h
      · rcases ih .run h with h2 | h2 | h2
        · simp [stChars] at h2
          right; right; exact h2
        · right; left; exact List.mem_cons_of_mem a h2
        · right; right; exact h2
      · rcases List.mem_cons.mp h with h2 | h2
        · right; right; exact h2
        · rcases List.mem_cons.mp h2 with h3 | h3
          · right; left; rw [h3]; exact List.mem_cons_self _ _
          · rcases ih .clean h3 with h4 | h4 | h4
            · simp [stChars] at h4
            · right; left; exact List.mem_cons_of_mem a h4
            · right; right; exact h4

theorem mem_collapseL {c : Char} {l : List Char} (h : c ∈ collapseL l) :
    c ∈ l ∨ c = Char.ofNat 32 := by
  rcases mem_collapseA .clean h with h2 | h2
  · simp [stChars] at h2
  · exact h2

theorem collapseA_id : ∀ (l : List Char), (noWsWs l → collapseA .clean l = l) ∧
    (∀ w, wsB w = true → noWsWs (w :: l) → collapseA (.pend w) l = w :: l) := by
  intro l
  induction l with
  | nil =>
    refine ⟨fun _ => rfl, fun w _ _ => rfl⟩
  | cons c rest ih =>
    constructor
    · intro h
      rw [collapseA]
      cases hw : wsB c with
      | true =>
        simp only [if_true]
        exact ih.2 c hw h
      | false =>
        simp only [Bool.false_eq_true, if_false]
        rw [ih.1 (noWsWs_tail h)]
    · intro w hw h
      rw [collapseA]
      have hc : wsB c = false := h.1 hw
      rw [hc]
      simp only [Bool.false_eq_true, if_false]
      rw [ih.1 (noWsWs_tail (noWsWs_tail h))]

theorem collapseL_id {l : List Char} (h : noWsWs l) : collapseL l = l :=
  (collapseA_id l).1 h

/-! ### Lemmas about `stripA` (the `/\\s+([.,;:!?])/` pass) -/

theorem noWs_noPunct_stripA : ∀ (l : List Char), noWsWs l →
    ∀ pend, pend.length ≤ 1 → (∀ w ∈ pend, wsB w = true) →
    (pend ≠ [] → ∀ c, l.head? = some c → wsB c = false) →
    noWsWs (stripA pend l) ∧ noWsPunct (stripA pend l) := by
  intro l
  induction l with
  | nil =>
    intro _ pend hlen _ _
    match pend, hlen with
    | [], _ => exact ⟨trivial, trivial⟩
    | [w], _ => exact ⟨trivial, trivial⟩
  | cons c rest ih =>
    intro h pend hlen hws hhead
    rw [stripA]
    cases hw : wsB c with
    | true =>
      simp only [if_true]
      have hpend : pend = [] := by
        cases pend with
        | nil => rfl
        | cons w pr =>
          have := hhead (by simp) c rfl
          rw [hw] at this
          cases this
      subst hpend
      refine ih (noWsWs_tail h) [c] (by simp) (by simp [hw]) ?_
      intro _ d hd
      cases rest with
      | nil => cases hd
      | cons e r2 =>
        cases hd
        exact h.1 hw
    | false =>
      simp only [Bool.false_eq_true, if_false]
      have hrec := ih (noWsWs_tail h) [] (by simp) (by simp) (by simp)
      cases hp : punctB c with
      | true =>
        simp only [if_true]
        refine ⟨noWsWs_cons (fun d _ h2 => by rw [h2] at hw; cases hw) hrec.1,
          noWsPunct_cons (fun d _ h2 => by rw [h2] at hw; cases hw) hrec.2⟩
      | false =>
        simp only [Bool.false_eq_true, if_false]
        match pend, hlen with
        | [], _ =>
          simp only [List.reverse_nil, List.nil_append]
          exact ⟨noWsWs_cons (fun d _ h2 => by rw [h2] at hw; cases hw) hrec.1,
            noWsPunct_cons (fun d _ h2 => by rw [h2] at hw; cases hw) hrec.2⟩
        | [w], _ =>
          simp only [List.reverse_cons, List.reverse_nil, List.nil_append, List.cons_append]
          constructor
          · refine noWsWs_cons (fun d hd _ => ?_) ?_
            · cases hd; exact hw
            · exact noWsWs_cons (fun d _ h2 => by rw [h2] at hw; cases hw) hrec.1
          · refine noWsPunct_cons (fun d hd _ => ?_) ?_
            · cases hd; exact hp
            · exact noWsPunct_cons (fun d _ h2 => by rw [h2] at hw; cases hw) hrec.2

theorem mem_stripA : ∀ {l : List Char} (pend : List Char) {c : Char},
    c ∈ stripA pend l → c ∈ pend ∨ c ∈ l := by
  intro l
  induction l with
  | nil =>
    intro pend c h
    rw [stripA] at h
    left
    exact List.mem_reverse.mp h
  | cons a rest ih =>
    intro pend c h
    rw [stripA] at h
    split at h
    · rcases ih (a :: pend) h with h2 | h2
      · rcases List.mem_cons.mp h2 with h3 | h3
        · right; rw [h3]; exact List.mem_cons_self _ _
        · left; exact h3
      · right; exact List.mem_cons_of_mem a h2
    · split at h
      · rcases List.mem_cons.mp h with h2 | h2
        · right; rw [h2]; exact List.mem_cons_self _ _
        · rcases ih [] h2 with h3 | h3
          · cases h3
          · right; exact List.mem_cons_of_mem a h3
      · rcases List.mem_append.mp h with h2 | h2
        · left; exact List.mem_reverse.mp h2
        · rcases List.mem_cons.mp h2 with h3 | h3
          · right; rw [h3]; exact List.mem_cons_self _ _
          · rcases ih [] h3 with h4 | h4
            · cases h4
            · right; exact List.mem_cons_of_mem a h4

theorem mem_stripL {c : Char} {l : List Char} (h : c ∈ stripL l) : c ∈ l := by
  rcases mem_stripA [] h with h2 | h2
  · cases h2
  · exact h2

theorem stripA_id : ∀ (l : List Char),
    (noWsWs l → noWsPunct l → stripA [] l = l) ∧
    (∀ w, wsB w = true →
      (∀ c, l.head? = some c → wsB c = false ∧ punctB c = false) →
      noWsWs l → noWsPunct l → stripA [w] l = w :: l) := by
  intro l
  induction l with
  | nil => exact ⟨fun _ _ => rfl, fun w _ _ _ _ => rfl⟩
  | cons c rest ih =>
    constructor
    · intro h hp
      rw [stripA]
      cases hw : wsB c with
      | true =>
        simp only [if_true]
        refine ih.2 c hw (fun d hd => ?_) (noWsWs_tail h) (noWsPunct_tail hp)
        cases rest with
        | nil => cases hd
        | cons e r2 =>
          cases hd
          exact ⟨h.1 hw, hp.1 hw⟩
      | false =>
        simp only [Bool.false_eq_true, if_false]
        cases hpc : punctB c with
        | true =>
          simp only [if_true]
          rw [ih.1 (noWsWs_tail h) (noWsPunct_tail hp)]
        | false =>
          simp only [Bool.false_eq_true, if_false, List.reverse_nil, List.nil_append]
          rw [ih.1 (noWsWs_tail h) (noWsPunct_tail hp)]
    · intro w hww hhead h hp
      rw [stripA]
      have hc := hhead c rfl
      rw [hc.1, hc.2]
      simp only [Bool.false_eq_true, if_false, List.reverse_cons, List.reverse_nil,
        List.nil_append, List.cons_append]
      rw [ih.1 (noWsWs_tail h) (noWsPunct_tail hp)]

theorem stripL_id {l : List Char} (h : noWsWs l) (hp : noWsPunct l) : stripL l = l :=
  (stripA_id l).1 h hp

/-! ### Lemmas about `trimL` -/

theorem mem_trimL {c : Char} {l : List Char} (h : c ∈ trimL l) : c ∈ l := by
  unfold trimL at h
  have h1 := List.mem_reverse.mp h
  have h2 := (List.dropWhile_sublist wsB).subset h1
  have h3 := List.mem_reverse.mp h2
  exact (List.dropWhile_sublist wsB).subset h3

theorem noWsWs_trimL {l : List Char} (h : noWsWs l) : noWsWs (trimL l) := by
  have h1 : noWsWs (l.dropWhile wsB) := noWsWs_dropWhile wsB h
  have heq : l.dropWhile wsB =
      ((l.dropWhile wsB).reverse.dropWhile wsB).reverse ++
      ((l.dropWhile wsB).reverse.takeWhile wsB).reverse := by
    conv =>
      lhs
      rw [← List.reverse_reverse (l.dropWhile wsB),
        ← List.takeWhile_append_dropWhile wsB (l.dropWhile wsB).reverse]
    rw [List.reverse_append]
  rw [heq] at h1
  exact noWsWs_append_left h1

theorem noWsPunct_trimL {l : List Char} (h : noWsPunct l) : noWsPunct (trimL l) := by
  have h1 : noWsPunct (l.dropWhile wsB) := noWsPunct_dropWhile wsB h
  have heq : l.dropWhile wsB =
      ((l.dropWhile wsB).reverse.dropWhile wsB).reverse ++
      ((l.dropWhile wsB).reverse.takeWhile wsB).reverse := by
    conv =>
      lhs
      rw [← List.reverse_reverse (l.dropWhile wsB),
        ← List.takeWhile_append_dropWhile wsB (l.dropWhile wsB).reverse]
    rw [List.reverse_append]
  rw [heq] at h1
  exact noWsPunct_append_left h1

theorem endsOk_trimL (l : List Char) : endsOk (trimL l) := by
  constructor
  · intro c hc
    unfold trimL at hc
    have heq : l.dropWhile wsB =
        ((l.dropWhile wsB).reverse.dropWhile wsB).reverse ++
        ((l.dropWhile wsB).reverse.takeWhile wsB).reverse := by
      conv =>
        lhs
        rw [← List.reverse_reverse (l.dropWhile wsB),
          ← List.takeWhile_append_dropWhile wsB (l.dropWhile wsB).reverse]
      rw [List.reverse_append]
    have hhead : (l.dropWhile wsB).head? = some c := by
      rw [heq, List.head?_append, hc]
      rfl
    exact head_dropWhile_false wsB l hhead
  · intro c hc
    unfold trimL at hc
    rw [List.getLast?_reverse] at hc
    exact head_dropWhile_false wsB (l.dropWhile wsB).reverse hc

theorem trimL_id {l : List Char} (h : endsOk l) : trimL l = l := by
  have h1 : l.dropWhile wsB = l := by
    cases l with
    | nil => rfl
    | cons c r =>
      rw [List.dropWhile_cons, h.1 c rfl]
      simp
  unfold trimL
  rw [h1]
  have h2 : l.reverse.dropWhile wsB = l.reverse := by
    cases hrev : l.reverse with
    | nil => rfl
    | cons c r =>
      have : l.getLast? = some c := by
        rw [← List.head?_reverse, hrev]
        rfl
      rw [List.dropWhile_cons, h.2 c this]
      simp
  rw [h2, List.reverse_reverse]

/-! ### Lemmas about `nbL` and `normalizeText` -/

theorem noNbsp_nbL (l : List Char) : noNbsp (nbL l) := by
  intro c hc
  rcases List.mem_map.mp hc with ⟨a, _, rfl⟩
  by_cases ha : a = Char.ofNat 160
  · simp only [ha, if_true]
    decide
  · simp only [ha, if_false]
    exact ha

theorem nbL_id {l : List Char} (h : noNbsp l) : nbL l = l := by
  induction l with
  | nil => rfl
  | cons c r ih =>
    unfold nbL
    simp only [List.map_cons]
    rw [if_neg (h c (List.mem_cons_self _ _))]
    have : nbL r = r := ih fun d hd => h d (List.mem_cons_of_mem c hd)
    unfold nbL at this
    rw [this]

theorem normalizeText_good (s : String) :
    noNbsp (normalizeText s).data ∧ noWsWs (normalizeText s).data ∧
    noWsPunct (normalizeText s).data ∧ endsOk (normalizeText s).data := by
  have hdata : (normalizeText s).data = trimL (stripL (collapseL (nbL s.data))) := rfl
  have hcol : noWsWs (collapseL (nbL s.data)) := noWsWs_collapseL _
  have hstrip := noWs_noPunct_stripA (collapseL (nbL s.data)) hcol [] (by simp) (by simp) (by simp)
  refine ⟨?_, ?_, ?_, ?_⟩
  · rw [hdata]
    intro c hc
    have h1 := mem_stripL (mem_trimL hc)
    rcases mem_collapseL h1 with h2 | h2
    · exact noNbsp_nbL s.data c h2
    · rw [h2]; decide
  · rw [hdata]
    exact noWsWs_trimL hstrip.1
  · rw [hdata]
    exact noWsPunct_trimL hstrip.2
  · rw [hdata]
    exact endsOk_trimL _

theorem normalizeText_idem (s : String) :
    normalizeText (normalizeText s) = normalizeText s := by
  obtain ⟨h1, h2, h3, h4⟩ := normalizeText_good s
  show String.mk (trimL (stripL (collapseL (nbL (normalizeText s).data)))) = normalizeText s
  rw [nbL_id h1, collapseL_id h2, stripL_id h2 h3, trimL_id h4]

/-! ### Lemmas about `normalizeSpacing` at tree level -/

theorem normStep_other (acc : List Block) (t c : String) :
    normStep acc (.other t c) = .other t c :: acc := rfl

theorem normStep_para_nonempty {c : String} (acc : List Block)
    (hn : normalizeText c ≠ "") :
    normStep acc (.para c) = .para (normalizeText c) :: acc := by
  simp only [normStep]
  rw [if_neg fun hb => hn (beq_iff_eq.mp hb)]

theorem normStep_para_empty_nil {c : String} (hn : normalizeText c = "") :
    normStep [] (.para c) = [] := by
  simp only [normStep]
  rw [if_pos (beq_iff_eq.mpr hn)]

theorem normStep_para_empty_other {c : String} (tg tc : String) (tl : List Block)
    (hn : normalizeText c = "") :
    normStep (.other tg tc :: tl) (.para c) = .other tg tc :: tl := by
  simp only [normStep]
  rw [if_pos (beq_iff_eq.mpr hn)]

theorem normStep_para_empty_blank {c pc : String} (tl : List Block)
    (hn : normalizeText c = "") (hpc : jsTrim pc = "") :
    normStep (.para pc :: tl) (.para c) = .para pc :: tl := by
  simp only [normStep]
  rw [if_pos (beq_iff_eq.mpr hn), if_pos (beq_iff_eq.mpr hpc)]

theorem normStep_para_empty_full {c pc : String} (tl : List Block)
    (hn : normalizeText c = "") (hpc : jsTrim pc ≠ "") :
    normStep (.para pc :: tl) (.para c) = .para "" :: .para pc :: tl := by
  simp only [normStep]
  rw [if_pos (beq_iff_eq.mpr hn), if_neg fun hb => hpc (beq_iff_eq.mp hb)]

theorem mem_normStep {acc : List Block} {x b : Block} (h : b ∈ normStep acc x) :
    b ∈ acc ∨ passBlock b := by
  cases x with
  | other t c =>
    rw [normStep_other] at h
    rcases List.mem_cons.mp h with h2 | h2
    · right; left; exact ⟨t, c, h2⟩
    · left; exact h2
  | para c =>
    by_cases hn : normalizeText c = ""
    · cases acc with
      | nil =>
        rw [normStep_para_empty_nil hn] at h
        left; exact h
      | cons hd tl =>
        cases hd with
        | other tg tc =>
          rw [normStep_para_empty_other tg tc tl hn] at h
          left; exact h
        | para pc =>
          by_cases hpc : jsTrim pc = ""
          · rw [normStep_para_empty_blank tl hn hpc] at h
            left; exact h
          · rw [normStep_para_empty_full tl hn hpc] at h
            rcases List.mem_cons.mp h with h2 | h2
            · right; right; left; exact h2
            · left; exact h2
    · rw [normStep_para_nonempty acc hn] at h
      rcases List.mem_cons.mp h with h2 | h2
      · right; right; right; exact ⟨c, h2, hn⟩
      · left; exact h2

theorem mem_normPassAux : ∀ (l acc : List Block) (b : Block),
    b ∈ normPassAux acc l → b ∈ acc ∨ passBlock b := by
  intro l
  induction l with
  | nil =>
    intro acc b h
    left
    exact List.mem_reverse.mp h
  | cons x r ih =>
    intro acc b h
    rw [normPassAux] at h
    rcases ih (normStep acc x) b h with h2 | h2
    · exact mem_normStep h2
    · right; exact h2

theorem normalBlock_of_normalizeSpacing {t : List Block} {b : Block}
    (h : b ∈ normalizeSpacing t) : normalBlock b := by
  unfold normalizeSpacing at h
  have hmem := List.mem_of_mem_filter h
  have hkeep := List.of_mem_filter h
  rcases mem_normPassAux t [] b hmem with h2 | h2
  · cases h2
  · rcases h2 with ⟨tg, c, rfl⟩ | rfl | ⟨c, rfl, hne⟩
    · trivial
    · simp [keepAfterSweep] at hkeep
    · exact ⟨hne, normalizeText_idem c⟩

theorem normPassAux_of_normal : ∀ (l acc : List Block), (∀ b ∈ l, normalBlock b) →
    normPassAux acc l = acc.reverse ++ l := by
  intro l
  induction l with
  | nil =>
    intro acc _
    simp [normPassAux]
  | cons x r ih =>
    intro acc h
    rw [normPassAux]
    cases x with
    | other t c =>
      rw [normStep_other, ih _ fun b hb => h b (List.mem_cons_of_mem _ hb)]
      simp
    | para c =>
      obtain ⟨hne, hfix⟩ := h (.para c) (List.mem_cons_self _ _)
      have hstep : normStep acc (.para c) = .para c :: acc := by
        rw [normStep_para_nonempty acc (by rw [hfix]; exact hne), hfix]
      rw [hstep, ih _ fun b hb => h b (List.mem_cons_of_mem _ hb)]
      simp

theorem keepAfterSweep_of_normal {b : Block} (h : normalBlock b) :
    keepAfterSweep b = true := by
  cases b with
  | para c =>
    simp only [keepAfterSweep, Bool.not_eq_true', beq_eq_false_iff_ne, ne_eq]
    exact h.1
  | other tg c => rfl

theorem normalizeSpacing_of_normal {t : List Block} (h : ∀ b ∈ t, normalBlock b) :
    normalizeSpacing t = t := by
  unfold normalizeSpacing
  rw [normPassAux_of_normal t [] h]
  simp only [List.reverse_nil, List.nil_append]
  rw [List.filter_eq_self]
  intro b hb
  exact keepAfterSweep_of_normal (h b hb)

/-! ### Lemmas for the frame property of `normalizeSpacing` -/

theorem filter_isOtherB_normStep (acc : List Block) (x : Block) :
    (normStep acc x).filter isOtherB =
      (if isOtherB x then x :: acc.filter isOtherB else acc.filter isOtherB) := by
  cases x with
  | other t c => simp [normStep_other, isOtherB, List.filter]
  | para c =>
    simp only [isOtherB, Bool.false_eq_true, if_false]
    by_cases hn : normalizeText c = ""
    · cases acc with
      | nil => rw [normStep_para_empty_nil hn]
      | cons hd tl =>
        cases hd with
        | other tg tc => rw [normStep_para_empty_other tg tc tl hn]
        | para pc =>
          by_cases hpc : jsTrim pc = ""
          · rw [normStep_para_empty_blank tl hn hpc]
          · rw [normStep_para_empty_full tl hn hpc]
            simp [List.filter, isOtherB]
    · rw [normStep_para_nonempty acc hn]
      simp [List.filter, isOtherB]

theorem filter_isOtherB_normPassAux : ∀ (l acc : List Block),
    (normPassAux acc l).filter isOtherB =
      (acc.filter isOtherB).reverse ++ l.filter isOtherB := by
  intro l
  induction l with
  | nil =>
    intro acc
    simp [normPassAux, List.filter_reverse]
  | cons x r ih =>
    intro acc
    rw [normPassAux, ih, filter_isOtherB_normStep]
    cases hx : isOtherB x with
    | true => simp [hx, List.filter_cons]
    | false => simp [hx, List.filter_cons]

theorem filter_isOtherB_sweep : ∀ (x : List Block),
    (x.filter keepAfterSweep).filter isOtherB = x.filter isOtherB := by
  intro x
  induction x with
  | nil => rfl
  | cons b r ih =>
    cases b with
    | other t c => simp [List.filter, keepAfterSweep, isOtherB, ih]
    | para c =>
      rw [List.filter_cons]
      split
      · simp [List.filter, isOtherB, ih]
      · simp [List.filter, isOtherB, ih]



/-! ### Lemmas about `convertSmartQuotes` -/

theorem replClose_replOpenGo (q o cc : Char) (hq : openerB q = false) (ho : o ≠ q) :
    ∀ (l : List Char) (po : Bool), (po = true → l.head? ≠ some q) →
    replClose q cc (replOpenGo q o l) = posMapB (quoteRule q o cc) po l := by
  intro l
  induction l using replOpenGo.induct q o with
  | case1 =>
    intro po _
    rfl
  | case2 c =>
    intro po hpo
    by_cases hc : c = q
    · have hpo2 : po = false := by
        cases po with
        | false => rfl
        | true => exact absurd (by rw [hc]; rfl) (hpo rfl)
      subst hc
      subst hpo2
      simp [replOpenGo, replClose, posMapB, quoteRule]
    · simp [replOpenGo, replClose, posMapB, quoteRule, hc]
  | case3 c rest hop ih =>
    intro po _
    have hcq : c ≠ q := fun he => by rw [he, hq] at hop; cases hop
    rw [replOpenGo]
    simp only [hop, if_true, if_pos rfl]
    simp only [replClose, List.map_cons, if_neg hcq, if_neg ho]
    have hrec := ih false (by simp)
    simp only [replClose] at hrec
    rw [hrec]
    simp only [posMapB, quoteRule, if_neg hcq, if_pos rfl, hop, if_true, hq]
  | case4 c d rest hop hd ih =>
    intro po _
    have hcq : c ≠ q := fun he => by rw [he, hq] at hop; cases hop
    rw [replOpenGo]
    simp only [hop, if_true, if_neg hd]
    simp only [replClose, List.map_cons, if_neg hcq]
    have hrec := ih (openerB c) (fun _ hhead => hd (by simpa using hhead))
    simp only [replClose] at hrec
    rw [hrec]
    simp only [posMapB, quoteRule, if_neg hcq]
  | case5 c d rest hop ih =>
    intro po hpo
    have hop2 : openerB c = false := by
      cases h2 : openerB c
      · rfl
      · exact absurd h2 hop
    rw [replOpenGo]
    simp only [hop2, Bool.false_eq_true, if_false]
    simp only [replClose, List.map_cons]
    have hrec := ih (openerB c) (by rw [hop2]; intro h2; cases h2)
    simp only [replClose] at hrec
    rw [hrec]
    by_cases hc : c = q
    · have hpo2 : po = false := by
        cases po with
        | false => rfl
        | true => exact absurd (by rw [hc]; rfl) (hpo rfl)
      subst hpo2
      simp only [posMapB, quoteRule, if_pos hc, Bool.false_eq_true, if_false]
    · simp only [posMapB, quoteRule, if_neg hc]

theorem replClose_replOpen (q o cc : Char) (hq : openerB q = false) (ho : o ≠ q)
    (l : List Char) :
    replClose q cc (replOpen q o l) = posMapB (quoteRule q o cc) true l := by
  cases l with
  | nil => rfl
  | cons c rest =>
    rw [replOpen]
    by_cases hc : c = q
    · simp only [if_pos hc]
      simp only [replClose, List.map_cons, if_neg ho]
      have hrec := replClose_replOpenGo q o cc hq ho rest false (by simp)
      simp only [replClose] at hrec
      rw [hrec]
      subst hc
      simp only [posMapB, quoteRule, if_pos rfl, if_true, hq]
    · simp only [if_neg hc]
      exact replClose_replOpenGo q o cc hq ho (c :: rest) true
        (fun _ hhead => hc (by simpa using hhead))

theorem posMapB_posMapB (f g : Bool → Char → Char)
    (hg : ∀ po c, openerB (g po c) = openerB c) :
    ∀ (l : List Char) (po : Bool),
    posMapB f po (posMapB g po l) = posMapB (fun b c => f b (g b c)) po l := by
  intro l
  induction l with
  | nil => intro po; rfl
  | cons c rest ih =>
    intro po
    simp only [posMapB, hg]
    rw [ih (openerB c)]

theorem posMapB_congr {f g : Bool → Char → Char} (h : ∀ po c, f po c = g po c) :
    ∀ (l : List Char) (po : Bool), posMapB f po l = posMapB g po l := by
  intro l
  induction l with
  | nil => intro po; rfl
  | cons c rest ih =>
    intro po
    simp only [posMapB, h]
    rw [ih (openerB c)]

theorem openerB_dqRule (po : Bool) (c : Char) :
    openerB (quoteRule (Char.ofNat 34) '“' '”' po c) = openerB c := by
  by_cases hc : c = Char.ofNat 34
  · subst hc
    cases po <;> decide
  · rw [quoteRule, if_neg hc]

theorem quoteRule_comp (po : Bool) (c : Char) :
    quoteRule (Char.ofNat 39) '‘' '’' po (quoteRule (Char.ofNat 34) '“' '”' po c) =
      smartRule po c := by
  by_cases h34 : c = Char.ofNat 34
  · subst h34
    cases po <;> decide
  · by_cases h39 : c = Char.ofNat 39
    · subst h39
      cases po <;> decide
    · simp only [quoteRule, smartRule, if_neg h34, if_neg h39]

theorem convertSmartQuotes_spec (s : String) :
    convertSmartQuotes s = String.mk (posMapB smartRule true s.data) := by
  show String.mk (replClose (Char.ofNat 39) '’' (replOpen (Char.ofNat 39) '‘'
    (replClose (Char.ofNat 34) '”' (replOpen (Char.ofNat 34) '“' s.data)))) = _
  rw [replClose_replOpen (Char.ofNat 34) '“' '”' (by decide) (by decide) s.data,
    replClose_replOpen (Char.ofNat 39) '‘' '’' (by decide) (by decide) _,
    posMapB_posMapB _ _ openerB_dqRule, posMapB_congr quoteRule_comp]

/-! ### The claims -/

/-- C6: Spacing normalization is idempotent: for every markup tree,
applying `normalizeSpacing` twice yields the same tree as applying it
once. -/
theorem claim_C6 (t : List Block) :
    normalizeSpacing (normalizeSpacing t) = normalizeSpacing t :=
  normalizeSpacing_of_normal fun _ hb => normalBlock_of_normalizeSpacing hb

/-- C7: During spacing normalization, a paragraph left empty by
normalization is removed when the preceding sibling is not a paragraph or
is a paragraph whose text trims to empty, and otherwise its content is
cleared but the element retained; and at the end of the pass no fully
empty paragraph remains anywhere in the tree. -/
theorem claim_C7 :
    (∀ (acc : List Block) (c : String), normalizeText c = "" →
      (prevParaAbsentOrBlank acc → normStep acc (.para c) = acc) ∧
      (¬ prevParaAbsentOrBlank acc → normStep acc (.para c) = .para "" :: acc)) ∧
    (∀ (t : List Block) (b : Block), b ∈ normalizeSpacing t → b ≠ .para "") := by
  constructor
  · intro acc c hn
    cases acc with
    | nil =>
      exact ⟨fun _ => normStep_para_empty_nil hn, fun hab => absurd trivial hab⟩
    | cons hd tl =>
      cases hd with
      | other tg tc =>
        exact ⟨fun _ => normStep_para_empty_other tg tc tl hn, fun hab => absurd trivial hab⟩
      | para pc =>
        by_cases hpc : jsTrim pc = ""
        · exact ⟨fun _ => normStep_para_empty_blank tl hn hpc, fun hab => absurd hpc hab⟩
        · exact ⟨fun hb => absurd hb hpc, fun _ => normStep_para_empty_full tl hn hpc⟩
  · intro t b hb he
    have hnb := normalBlock_of_normalizeSpacing hb
    rw [he] at hnb
    exact hnb.1 rfl

/-- Witness for C7: a paragraph of one space after a paragraph with text
is cleared in place, and a surviving paragraph is never the empty one. -/
theorem claim_C7_witness :
    normStep [Block.para "x"] (Block.para " ") = Block.para "" :: [Block.para "x"] ∧
    Block.para "a" ≠ Block.para "" :=
  ⟨(claim_C7.1 [Block.para "x"] " " (by decide)).2
      (fun h => absurd (show jsTrim "x" = "" from h) (by decide)),
   claim_C7.2 [Block.para "a"] (Block.para "a") (by decide)⟩

/-- C8: quote substitution follows the directional rule — an opening curly
quote exactly when the straight quote is preceded by start-of-string,
whitespace or an opening bracket, a closing curly quote otherwise, for
both quote kinds — and the concrete example from the spec evaluates as
documented. -/
theorem claim_C8 :
    (∀ s : String, convertSmartQuotes s = String.mk (posMapB smartRule true s.data)) ∧
    convertSmartQuotes "He said \x22hello\x22 and it\x27s fine" =
      "He said “hello” and it’s fine" :=
  ⟨convertSmartQuotes_spec, by decide⟩

/-- C10: spacing normalization touches only `<p>` elements: the sequence
of non-paragraph elements, with their tags and text contents, is exactly
preserved. -/
theorem claim_C10 (t : List Block) :
    (normalizeSpacing t).filter isOtherB = t.filter isOtherB := by
  unfold normalizeSpacing
  rw [filter_isOtherB_sweep, filter_isOtherB_normPassAux]
  rfl

/-- C3: heading case normalization lowercases the whole string, splits on
whitespace, maps every word by position — capitalizing it unless it is a
mid-string connector word, never lowercasing the first or last word, and
capitalizing each hyphen-separated segment independently — and the spec's
concrete example evaluates as documented. -/
theorem claim_C3 :
    toTitleCase "the quick BROWN fox jumps over a lazy-dog" =
      "The Quick Brown Fox Jumps Over a Lazy-Dog" ∧
    (∀ input : String, toTitleCase input =
      joinSep " " (mapIdxFrom (fun i w =>
        titleWord i (splitWs (toLowerS input).data).length w) 0
        (splitWs (toLowerS input).data))) ∧
    (∀ i n w, w ≠ "" → w.data.contains (Char.ofNat 45) = false →
      (i = 0 ∨ i = n - 1) → titleWord i n w = capFirst w) ∧
    (∀ i n w, w ≠ "" → w.data.contains (Char.ofNat 45) = false →
      i ≠ 0 → i ≠ n - 1 → w ∈ smallWords → titleWord i n w = w) ∧
    (∀ i n w, w ≠ "" → w.data.contains (Char.ofNat 45) = true →
      titleWord i n w = joinSep "-" ((splitHyphen w).map capFirst)) := by
  refine ⟨by decide, fun input => rfl, ?_, ?_, ?_⟩
  · intro i n w hne hhy hidx
    unfold titleWord
    rw [if_neg hne, if_neg (by rw [hhy]; exact fun hb => by cases hb)]
    rw [if_neg ?_]
    intro ⟨h1, h2, _⟩
    rcases hidx with h | h
    · exact h1 h
    · exact h2 h
  · intro i n w hne hhy h0 hl hsm
    unfold titleWord
    rw [if_neg hne, if_neg (by rw [hhy]; exact fun hb => by cases hb)]
    rw [if_pos ⟨h0, hl, hsm⟩]
  · intro i n w hne hhy
    unfold titleWord
    rw [if_neg hne, if_pos hhy]

/-- Witness for C3: in the eight-word example heading, the first word
`"the"` is capitalized although it is a connector word, the mid-string
`"a"` stays lowercase, and `"lazy-dog"` is capitalized per segment. -/
theorem claim_C3_witness :
    titleWord 0 8 "the" = capFirst "the" ∧
    titleWord 6 8 "a" = "a" ∧
    titleWord 7 8 "lazy-dog" = joinSep "-" ((splitHyphen "lazy-dog").map capFirst) :=
  ⟨claim_C3.2.2.1 0 8 "the" (by decide) (by decide) (Or.inl rfl),
   claim_C3.2.2.2.1 6 8 "a" (by decide) (by decide) (by decide) (by decide) (by decide),
   claim_C3.2.2.2.2 7 8 "lazy-dog" (by decide) (by decide)⟩

/-- C2 counterexample: the `justify` field submitted with the
unrecognized string value `"no"` parses to `false`, not to the documented
default `true` the claim demands for non-true-tokens. -/
theorem claim_C2_counterexample :
    formJustifyNo "justify" = some (FormDataEntryValue.str "no") ∧
    "no" ≠ "true" ∧ "no" ≠ "1" ∧
    (parseOptions formJustifyNo).justify = false := by decide

/-- C2 as amended: an absent or non-string (file) field value parses to
the documented default (true for justify, tidySpacing, titleCaseHeadings,
convertQuotes; false for autoNumberHeadings); a present string value
parses to true exactly when it is `"true"` or `"1"`, and to false
otherwise. -/
theorem claim_C2_amended (g : String → Option FormDataEntryValue) :
    ((g "justify" = none ∨ (∃ fv, g "justify" = some (.file fv))) →
        (parseOptions g).justify = true) ∧
    (∀ s, g "justify" = some (.str s) →
        (parseOptions g).justify = (s == "true" || s == "1")) ∧
    ((g "tidySpacing" = none ∨ (∃ fv, g "tidySpacing" = some (.file fv))) →
        (parseOptions g).tidySpacing = true) ∧
    (∀ s, g "tidySpacing" = some (.str s) →
        (parseOptions g).tidySpacing = (s == "true" || s == "1")) ∧
    ((g "titleCaseHeadings" = none ∨ (∃ fv, g "titleCaseHeadings" = some (.file fv))) →
        (parseOptions g).titleCaseHeadings = true) ∧
    (∀ s, g "titleCaseHeadings" = some (.str s) →
        (parseOptions g).titleCaseHeadings = (s == "true" || s == "1")) ∧
    ((g "autoNumberHeadings" = none ∨ (∃ fv, g "autoNumberHeadings" = some (.file fv))) →
        (parseOptions g).autoNumberHeadings = false) ∧
    (∀ s, g "autoNumberHeadings" = some (.str s) →
        (parseOptions g).autoNumberHeadings = (s == "true" || s == "1")) ∧
    ((g "convertQuotes" = none ∨ (∃ fv, g "convertQuotes" = some (.file fv))) →
        (parseOptions g).convertQuotes = true) ∧
    (∀ s, g "convertQuotes" = some (.str s) →
        (parseOptions g).convertQuotes = (s == "true" || s == "1")) := by
  refine ⟨?_, ?_, ?_, ?_, ?_, ?_, ?_, ?_, ?_, ?_⟩ <;>
    first
      | (rintro (h | ⟨fv, h⟩) <;> · show parseBoolean _ _ = _; rw [h]; rfl)
      | (intro s h; show parseBoolean _ _ = _; rw [h]; rfl)

/-- Witness for C2: absent fields give the documented defaults, and the
string `"no"` parses to false. -/
theorem claim_C2_witness :
    (parseOptions (fun _ => none)).justify = true ∧
    (parseOptions (fun _ => none)).autoNumberHeadings = false ∧
    (parseOptions formJustifyNo).justify = ("no" == "true" || "no" == "1") :=
  ⟨(claim_C2_amended (fun _ => none)).1 (Or.inl rfl),
   (claim_C2_amended (fun _ => none)).2.2.2.2.2.2.1 (Or.inl rfl),
   (claim_C2_amended formJustifyNo).2.1 "no" (by decide)⟩

/-- C5: evaluation of the actual preset resolution at the failing input.
The submitted preset string `"constructor"` is outside the recognized
set, yet the truthy inherited `Object.prototype.constructor` makes
`PRESET_CONFIG["constructor"]` pass the truthiness test, so the handler
resolves the preset to `"constructor"` itself — not to `"classic"` as
the claim requires — and that value is what `appliedPreset` reports.
The same happens for every `Object.prototype` member, while a string
naming no property at all does fall back to `"classic"`. -/
theorem claim_C5_bug :
    ¬("constructor" = "classic" ∨ "constructor" = "modern" ∨ "constructor" = "executive") ∧
    chosenPresetJs (some (.str "constructor")) = .str "constructor" ∧
    chosenPresetJs (some (.str "constructor")) ≠ .str "classic" ∧
    chosenPresetJs (some (.str "toString")) = .str "toString" ∧
    chosenPresetJs (some (.str "hasOwnProperty")) = .str "hasOwnProperty" ∧
    chosenPresetJs (some (.str "fancy")) = .str "classic" ∧
    chosenPresetJs (some (.str "")) = .str "classic" ∧
    chosenPresetJs none = .str "classic" := by decide

/-- C4: the handler answers 400 with the fixed message when the file
field is missing or not a file, independently of every later stage;
when a file is present it answers 500 with the fixed generic message
exactly on a pipeline error and otherwise 200 carrying both the encoded
document and the preview; and every response is one of these three
shapes. -/
theorem claim_C4 (form : String → Option FormDataEntryValue) (ext : ExternalLibs) :
    ((∀ f, form "file" ≠ some (.file f)) →
      POST form ext = .badRequest invalidFileMsg ∧
      ∀ ext2, POST form ext2 = POST form ext) ∧
    (∀ f, form "file" = some (.file f) →
      (∀ e, pipeline ext f (chosenPreset (form "preset")) (parseOptions form) = .error e →
        POST form ext = .serverError genericErrorMsg) ∧
      (∀ r, pipeline ext f (chosenPreset (form "preset")) (parseOptions form) = .ok r →
        POST form ext = .ok (ext.toBase64 r.1) r.2 (chosenPreset (form "preset")))) ∧
    (POST form ext = .badRequest invalidFileMsg ∨
      POST form ext = .serverError genericErrorMsg ∨
      ∃ b pv a, POST form ext = .ok b pv a) := by
  have hbad : (∀ f, form "file" ≠ some (.file f)) →
      ∀ ext2 : ExternalLibs, POST form ext2 = .badRequest invalidFileMsg := by
    intro hnf ext2
    unfold POST
    split
    · rename_i f hf
      exact absurd hf (hnf f)
    · rfl
  refine ⟨fun hnf => ⟨hbad hnf ext, fun ext2 => (hbad hnf ext2).trans (hbad hnf ext).symm⟩,
    ?_, ?_⟩
  · intro f hf
    constructor
    · intro e he
      unfold POST
      rw [hf]
      show (match pipeline ext f (chosenPreset (form "preset")) (parseOptions form) with
        | Except.error _ => ApiResponse.serverError genericErrorMsg
        | Except.ok r =>
          ApiResponse.ok (ext.toBase64 r.1) r.2 (chosenPreset (form "preset"))) =
        ApiResponse.serverError genericErrorMsg
      rw [he]
    · intro r hr
      unfold POST
      rw [hf]
      show (match pipeline ext f (chosenPreset (form "preset")) (parseOptions form) with
        | Except.error _ => ApiResponse.serverError genericErrorMsg
        | Except.ok r =>
          ApiResponse.ok (ext.toBase64 r.1) r.2 (chosenPreset (form "preset"))) =
        ApiResponse.ok (ext.toBase64 r.1) r.2 (chosenPreset (form "preset"))
      rw [hr]
  · unfold POST
    split
    · rename_i f hf
      split
      · right; left; rfl
      · right; right
        exact ⟨_, _, _, rfl⟩
    · left; rfl

/-- Witness for C4: a form with no file is rejected with the fixed 400
message, and a failing encoder yields the fixed generic 500 message. -/
theorem claim_C4_witness :
    POST (fun _ => none) extId = .badRequest invalidFileMsg ∧
    POST formFile extErr = .serverError genericErrorMsg :=
  ⟨((claim_C4 (fun _ => none) extId).1 (fun _ h => by cases h)).1,
   ((claim_C4 formFile extErr).2.1 ⟨[]⟩ (by decide)).1 () rfl⟩

/-- C1: the assembler sanitizes the body markup exactly once and embeds
that same sanitized string in both the standalone document and the
preview; the outputs depend on the body markup only through the
sanitizer; and the encoder input in the pipeline is the standalone
document built around the sanitized content. -/
theorem claim_C1 (sanitize : String → String) (bodyMarkup : String)
    (preset : StylePresetId) (options : FormatterOptions) :
    (buildHtmlDocument sanitize bodyMarkup preset options).1 =
      docPartA ++ buildStyleSheet (presetConfig preset) options ++ docPartB ++
        sanitize bodyMarkup ++ docPartC ∧
    (buildHtmlDocument sanitize bodyMarkup preset options).2 =
      prevPartA ++ buildStyleSheet (presetConfig preset) options ++ prevPartB ++
        sanitize bodyMarkup ++ prevPartC ∧
    (∀ b2, sanitize bodyMarkup = sanitize b2 →
      buildHtmlDocument sanitize bodyMarkup preset options =
        buildHtmlDocument sanitize b2 preset options) ∧
    (∀ (ext : ExternalLibs) (f : FileVal) (buffer : List Nat) (rawHtml : String),
      ext.sanitize = sanitize →
      ext.fileBytes f = .ok buffer →
      ext.mammothConvert buffer = .ok rawHtml →
      pipeline ext f preset options =
        match ext.docxEncode (docPartA ++ buildStyleSheet (presetConfig preset) options ++
            docPartB ++ sanitize (bodyMarkupOf ext options rawHtml) ++ docPartC) with
        | .error e => .error e
        | .ok buf => .ok (buf,
            prevPartA ++ buildStyleSheet (presetConfig preset) options ++ prevPartB ++
              sanitize (bodyMarkupOf ext options rawHtml) ++ prevPartC)) := by
  refine ⟨rfl, rfl, ?_, ?_⟩
  · intro b2 h
    unfold buildHtmlDocument
    rw [h]
  · intro ext f buffer rawHtml hs hb hm
    unfold pipeline
    rw [hb]
    show (match ext.mammothConvert buffer with
      | Except.error e => Except.error e
      | Except.ok rawHtml =>
        let doc := buildHtmlDocument ext.sanitize (bodyMarkupOf ext options rawHtml)
          preset options
        match ext.docxEncode doc.1 with
        | Except.error e => Except.error e
        | Except.ok docxBuffer => Except.ok (docxBuffer, doc.2)) = _
    rw [hm]
    subst hs
    rfl

/-- Witness for C1: with a sanitizer that erases the body, two different
body markups give identical outputs, and the pipeline hands the encoder
the wrapped sanitized document. -/
theorem claim_C1_witness :
    buildHtmlDocument (fun _ => "S") "a" .classic ⟨true, true, true, false, true⟩ =
      buildHtmlDocument (fun _ => "S") "b" .classic ⟨true, true, true, false, true⟩ ∧
    pipeline extId ⟨[]⟩ .classic ⟨true, true, true, false, true⟩ =
      (match extId.docxEncode (docPartA ++
          buildStyleSheet (presetConfig .classic) ⟨true, true, true, false, true⟩ ++
          docPartB ++ bodyMarkupOf extId ⟨true, true, true, false, true⟩ "" ++ docPartC) with
        | .error e => .error e
        | .ok buf => .ok (buf, prevPartA ++
            buildStyleSheet (presetConfig .classic) ⟨true, true, true, false, true⟩ ++
            prevPartB ++ bodyMarkupOf extId ⟨true, true, true, false, true⟩ "" ++ prevPartC)) :=
  ⟨(claim_C1 (fun _ => "S") "a" .classic ⟨true, true, true, false, true⟩).2.2.1 "b" rfl,
   (claim_C1 (fun s => s) "" .classic ⟨true, true, true, false, true⟩).2.2.2
      extId ⟨[]⟩ [] "" rfl rfl rfl⟩

set_option maxRecDepth 100000 in
/-- C9: the synthesized stylesheet carries the three-level counter
numbering rules — level 1 increments `h1` and resets `h2`, level 2
increments `h2` and resets `h3`, dotted composite `content` strings, and
the numbering text styled with the preset's heading weight and accent —
exactly when `autoNumberHeadings` is true; when it is false the sheet
contains no `counter` rule at all. -/
theorem claim_C9 (p : StylePresetId) (o : FormatterOptions) :
    (o.autoNumberHeadings = true →
      buildStyleSheet (presetConfig p) o =
        sheetMain (presetConfig p) o.justify ++ numberingCss (presetConfig p) ++ "\n" ∧
      (containsS "counter-reset: h1;" (numberingCss (presetConfig p)) = true ∧
        containsS "counter-reset: h2;" (numberingCss (presetConfig p)) = true ∧
        containsS "counter-reset: h3;" (numberingCss (presetConfig p)) = true ∧
        containsS "counter-increment: h1;" (numberingCss (presetConfig p)) = true ∧
        containsS "counter-increment: h2;" (numberingCss (presetConfig p)) = true ∧
        containsS "counter-increment: h3;" (numberingCss (presetConfig p)) = true) ∧
      (containsS "h1 \x7b\n    counter-reset: h2;" (numberingCss (presetConfig p)) = true ∧
        containsS "h2 \x7b\n    counter-reset: h3;" (numberingCss (presetConfig p)) = true ∧
        containsS "content: counter(h1) \x22. \x22;" (numberingCss (presetConfig p)) = true ∧
        containsS "content: counter(h1) \x22.\x22 counter(h2) \x22 \x22;"
          (numberingCss (presetConfig p)) = true ∧
        containsS "content: counter(h1) \x22.\x22 counter(h2) \x22.\x22 counter(h3) \x22 \x22;"
          (numberingCss (presetConfig p)) = true ∧
        containsS ("font-weight: " ++ toString (presetConfig p).headingWeight ++
            ";\n    color: " ++ (presetConfig p).accent ++ ";")
          (numberingCss (presetConfig p)) = true)) ∧
    (o.autoNumberHeadings = false →
      containsS "counter" (buildStyleSheet (presetConfig p) o) = false) := by
  constructor
  · intro h
    refine ⟨?_, ?_, ?_⟩
    · unfold buildStyleSheet
      rw [h]
      rfl
    · cases p <;> exact ⟨by decide, by decide, by decide, by decide, by decide, by decide⟩
    · cases p <;> exact ⟨by decide, by decide, by decide, by decide, by decide, by decide⟩
  · intro h
    have heq : buildStyleSheet (presetConfig p) o =
        sheetMain (presetConfig p) o.justify ++ "" ++ "\n" := by
      unfold buildStyleSheet
      rw [h]
      rfl
    rw [heq]
    cases p <;> cases hj : o.justify <;> decide

set_option maxRecDepth 100000 in
/-- Witness for C9: with numbering on, the classic sheet splits into main
part and numbering block containing the counter rules; with numbering
off, no `counter` text occurs. -/
theorem claim_C9_witness :
    (buildStyleSheet (presetConfig .classic) ⟨true, true, true, true, true⟩ =
      sheetMain (presetConfig .classic) true ++ numberingCss (presetConfig .classic) ++ "\n" ∧
      (containsS "counter-reset: h1;" (numberingCss (presetConfig .classic)) = true ∧
        containsS "counter-reset: h2;" (numberingCss (presetConfig .classic)) = true ∧
        containsS "counter-reset: h3;" (numberingCss (presetConfig .classic)) = true ∧
        containsS "counter-increment: h1;" (numberingCss (presetConfig .classic)) = true ∧
        containsS "counter-increment: h2;" (numberingCss (presetConfig .classic)) = true ∧
        containsS "counter-increment: h3;" (numberingCss (presetConfig .classic)) = true) ∧
      (containsS "h1 \x7b\n    counter-reset: h2;" (numberingCss (presetConfig .classic)) = true ∧
        containsS "h2 \x7b\n    counter-reset: h3;" (numberingCss (presetConfig .classic)) = true ∧
        containsS "content: counter(h1) \x22. \x22;" (numberingCss (presetConfig .classic)) = true ∧
        containsS "content: counter(h1) \x22.\x22 counter(h2) \x22 \x22;"
          (numberingCss (presetConfig .classic)) = true ∧
        containsS "content: counter(h1) \x22.\x22 counter(h2) \x22.\x22 counter(h3) \x22 \x22;"
          (numberingCss (presetConfig .classic)) = true ∧
        containsS ("font-weight: " ++ toString (presetConfig .classic).headingWeight ++
            ";\n    color: " ++ (presetConfig .classic).accent ++ ";")
          (numberingCss (presetConfig .classic)) = true)) ∧
    containsS "counter"
      (buildStyleSheet (presetConfig .classic) ⟨true, true, true, false, true⟩) = false :=
  ⟨(claim_C9 .classic ⟨true, true, true, true, true⟩).1 rfl,
   (claim_C9 .classic ⟨true, true, true, false, true⟩).2 rfl⟩

end FormatStudio
